import Mathlib

/-!
# Verification of `app.py` (online-video-downloader)

A shallow embedding of the pure logic of `src/app.py`: URL platform
classification (`parse_web_url`, `host_matches`, `detect_platform`), the
yt-dlp invocation wrapper with its certificate retry
(`run_yt_dlp_command`, `is_certificate_verify_error`), playlist entry
flattening (`flatten_entries`), the download-option construction
(`format_score`, `build_download_options`), title normalization
(`normalize_title`), and the post-download file location step of
`run_download`.

Modelling conventions:
* Python strings are `String` (or `List Char` in the URL classifier, where
  suffix reasoning is needed); `str.lower`/`str.upper` are modelled with
  `Char.toLower`/`Char.toUpper`, which agree with Python on ASCII input.
* Python floats are modelled as `Rat`.
* A Python dict with a known key set is a structure whose fields are
  `Option`-valued; `none` models both an absent key and a `None` value.
* Subprocess execution is modelled by an oracle `runner : List String →
  CompletedProcess` mapping a command line to its result; the filesystem
  scan of `run_download` is modelled by an oracle listing of the workspace.
* Python's stable `list.sort`/`sorted` is modelled by `List.insertionSort`:
  a stable sort with respect to a total preorder is uniquely determined by
  its input, so any stable sort models CPython's Timsort faithfully.
-/

namespace App

/-- ASCII whitespace, as stripped by Python's `str.strip()` and matched by
the regex class `\s` (the app only ever feeds it ASCII-range titles;
Python additionally treats some Unicode code points as whitespace). -/
def pyIsSpace (c : Char) : Bool :=
  c = ' ' || c = '\t' || c = '\n' || c = '\r' || c = '\x0b' || c = '\x0c'

/-- Python `str.strip()` on a character list. -/
def pyStripList (s : List Char) : List Char :=
  ((s.dropWhile pyIsSpace).reverse.dropWhile pyIsSpace).reverse

/-- Python `str.strip()`. -/
def pyStrip (s : String) : String :=
  ⟨pyStripList s.data⟩

/-- Python `str.lower()` (ASCII-faithful). -/
def pyLower (s : String) : String :=
  ⟨s.data.map Char.toLower⟩

/-- Python `str.upper()` (ASCII-faithful). -/
def pyUpper (s : String) : String :=
  ⟨s.data.map Char.toUpper⟩

/-- Python `a or b` on strings: `a` unless it is empty. -/
def pyOr (a b : String) : String :=
  if a ≠ "" then a else b

/-! ## URL classifier (`parse_web_url`, `host_matches`, `detect_platform`) -/

/-- The four supported platforms, in the iteration order of the
`SUPPORTED_PLATFORMS` dict of the source. -/
inductive Platform where
  | instagram
  | youtube
  | facebook
  | loom
deriving DecidableEq, Fintype, Repr

/-- Root domains of one platform (the tuples of `SUPPORTED_PLATFORMS`). -/
def platformDomains : Platform → List (List Char)
  | .instagram => ["instagram.com".data]
  | .youtube => ["youtube.com".data, "youtu.be".data]
  | .facebook => ["facebook.com".data, "fb.watch".data]
  | .loom => ["loom.com".data]

/-- The `SUPPORTED_PLATFORMS` dict: platform/domain pairs in insertion
order. -/
def SUPPORTED_PLATFORMS : List (Platform × List (List Char)) :=
  [(.instagram, platformDomains .instagram),
   (.youtube, platformDomains .youtube),
   (.facebook, platformDomains .facebook),
   (.loom, platformDomains .loom)]

/-- `host_matches`: `host == root_domain or host.endswith("." + root_domain)`. -/
def host_matches (host root : List Char) : Bool :=
  host == root || decide (('.' :: root) <:+ host)

/-- Characters allowed in a URL scheme after its first character
(`urllib.parse.scheme_chars`). -/
def isSchemeChar (c : Char) : Bool :=
  c.isAlphanum || c = '+' || c = '-' || c = '.'

/-- Model of `urllib.parse.urlparse(url)` restricted to the two components
`parse_web_url` reads: the (lowercased) scheme and the netloc.  Faithful to
CPython's `urlsplit` for ASCII input: tab/CR/LF characters are removed
anywhere in the URL; a scheme is split off only when the text before the
first `:` is non-empty, starts with a letter and continues with scheme
characters; a netloc is present only when the remainder starts with `//`
and extends to the next `/`, `?` or `#`.  `none` models the `ValueError`
CPython raises on a netloc with mismatched square brackets.  (CPython
additionally validates a bracketed IPv6 host and normalization-unstable
non-ASCII netlocs; both are outside this ASCII-oriented model.) -/
def pyUrlparse (url : List Char) : Option (List Char × List Char) :=
  let url := url.filter (fun c => !(c = '\t' || c = '\r' || c = '\n'))
  let schemeRest :=
    match url.findIdx? (· = ':') with
    | some i =>
      if 0 < i ∧ (url.headD ' ').isAlpha ∧ ((url.take i).drop 1).all isSchemeChar then
        ((url.take i).map Char.toLower, url.drop (i + 1))
      else ([], url)
    | none => ([], url)
  let netloc :=
    match schemeRest.2 with
    | '/' :: '/' :: r => r.takeWhile (fun c => !(c = '/' || c = '?' || c = '#'))
    | _ => []
  if ('[' ∈ netloc) ≠ (']' ∈ netloc) then none
  else some (schemeRest.1, netloc)

/-- `parse_web_url`: reject empty input, strip, parse, lowercase the netloc
and cut it at the first `:` to obtain the host; fail closed on a non-http(s)
scheme or an empty host.  Only the host component of the Python result pair
is modelled; the `ParseResult` member is not consumed by the functions
verified here. -/
def parse_web_url (url : List Char) : Option (List Char) :=
  if url = [] then none
  else
    match pyUrlparse (pyStripList url) with
    | none => none
    | some (scheme, netloc) =>
      let host := (netloc.map Char.toLower).takeWhile (fun c => !(c = ':'))
      if (scheme = "http".data ∨ scheme = "https".data) ∧ host ≠ [] then some host
      else none

/-- `detect_platform`: first platform (in dict order) one of whose domains
matches the host. -/
def detect_platform (url : List Char) : Option Platform :=
  match parse_web_url url with
  | none => none
  | some host =>
    (SUPPORTED_PLATFORMS.find? (fun pd => pd.2.any (host_matches host))).map Prod.fst

/-! ## yt-dlp invocation (`run_yt_dlp_command`) -/

/-- The result of one subprocess invocation
(`subprocess.CompletedProcess` with `text=True`). -/
structure CompletedProcess where
  returncode : Int
  stdout : String
  stderr : String
deriving DecidableEq, Repr

/-- `is_certificate_verify_error`: case-insensitive containment of either
known TLS-verification failure substring. -/
def is_certificate_verify_error (message : String) : Bool :=
  let text := pyLower message
  decide ("certificate_verify_failed".data <:+: text.data) ||
    decide ("unable to get local issuer certificate".data <:+: text.data)

/-- `(proc.stderr or proc.stdout or dflt).strip()`. -/
def failure_message (proc : CompletedProcess) (dflt : String) : String :=
  pyStrip (pyOr proc.stderr (pyOr proc.stdout dflt))

/-- Python `str.endswith(suffix)`. -/
def pyEndsWith (s suffix : String) : Bool :=
  suffix.data.isSuffixOf s.data

/-- Python `list.insert(1, x)`. -/
def pyInsertSecond (l : List String) (x : String) : List String :=
  match l with
  | [] => [x]
  | a :: rest => a :: x :: rest

/-- `run_yt_dlp_command`, instrumented: the first component is the
`CompletedProcess` the function returns, the second records the command
lines actually executed, in order (so the retry count is observable).
Subprocess execution is the oracle `runner`. -/
def run_yt_dlp_command (runner : List String → CompletedProcess) (cmd : List String) :
    CompletedProcess × List (List String) :=
  let proc := runner cmd
  if proc.returncode = 0 then (proc, [cmd])
  else
    let message := failure_message proc "yt-dlp failed"
    if "--no-check-certificates" ∉ cmd ∧ is_certificate_verify_error message = true then
      let retryCmd := pyInsertSecond cmd "--no-check-certificates"
      (runner retryCmd, [cmd, retryCmd])
    else (proc, [cmd])

/-- `yt_dlp_base_args`, with the `YTDLP_COOKIES_FILE` environment value as a
parameter (empty string models an unset variable). -/
def yt_dlp_base_args (cookiesFile : String) : List String :=
  ["yt-dlp", "--no-warnings"] ++
    (if pyStrip cookiesFile ≠ "" then ["--cookies", pyStrip cookiesFile] else [])

/-! ## Format selector (`format_score`, `build_download_options`) -/

/-- One entry of an item's `formats` array.  Fields are the dict keys the
source reads; `none` models an absent key or a `None` value; numeric values
are `Rat` (Python floats), `height` is `Int` (`none` also models a value
`int()` cannot convert, which the source maps to 0). -/
structure RawFormat where
  format_id : Option String
  vcodec : Option String
  acodec : Option String
  height : Option Int
  fps : Option Rat
  tbr : Option Rat
  abr : Option Rat
  ext : Option String
  url : Option String
deriving DecidableEq, Repr

/-- A neutral `RawFormat` with every key absent. -/
def RawFormat.empty : RawFormat :=
  ⟨none, none, none, none, none, none, none, none, none⟩

/-- One extracted item, restricted to the key `build_download_options`
reads: `formats`.  The outer `none` models an absent `formats` key or a
non-list value; a `none` element models a list entry that is not a dict. -/
structure MediaItem where
  formats : Option (List (Option RawFormat))
deriving DecidableEq, Repr

/-- `str(fmt.get(k) or dflt)` for a string-valued key: the default applies
when the key is absent, `None`, or the empty string. -/
def pyStrOr (v : Option String) (dflt : String) : String :=
  match v with
  | none => dflt
  | some s => if s = "" then dflt else s

/-- `str(fmt.get("format_id") or "").strip()`. -/
def format_idOf (fmt : RawFormat) : String :=
  pyStrip (pyStrOr fmt.format_id "")

/-- `str(fmt.get("vcodec") or "none")`. -/
def vcodecOf (fmt : RawFormat) : String :=
  pyStrOr fmt.vcodec "none"

/-- `str(fmt.get("acodec") or "none")`. -/
def acodecOf (fmt : RawFormat) : String :=
  pyStrOr fmt.acodec "none"

/-- `str(fmt.get("ext") or "").upper()`. -/
def extOf (fmt : RawFormat) : String :=
  pyUpper (pyStrOr fmt.ext "")

/-- `int(fmt.get("height"))` with the surrounding `try`: 0 on absent or
unconvertible values. -/
def heightOf (fmt : RawFormat) : Int :=
  fmt.height.getD 0

/-- `format_score`: `float(tbr or 0) + float(fps or 0) / 1000`. -/
def format_score (fmt : RawFormat) : Rat :=
  fmt.tbr.getD 0 + fmt.fps.getD 0 / 1000

/-- Python `round` (banker's rounding: ties go to the even integer). -/
def pyRound (q : Rat) : Int :=
  let f : Int := ⌊q⌋
  let frac : Rat := q - f
  if frac < 1 / 2 then f
  else if 1 / 2 < frac then f + 1
  else if f % 2 = 0 then f else f + 1

/-- `int(round(float(fmt.get("abr"))))` with the surrounding `try`:
`none` models the `TypeError` on an absent `abr`. -/
def abrOf (fmt : RawFormat) : Option Int :=
  fmt.abr.map pyRound

/-- One iteration of the partitioning loop: `video_by_height` is an
insertion-ordered association list (the Python dict), `audio_candidates`
a plain list.  A format with an empty identifier is discarded; a
video-capable one (`vcodec != "none"`) with positive height replaces the
stored format at its height exactly when its score is strictly greater;
an audio-only one (`vcodec == "none" and acodec != "none"`) is appended. -/
def vbhUpdate (m : List (Int × RawFormat)) (h : Int) (fmt : RawFormat) :
    List (Int × RawFormat) :=
  match m.lookup h with
  | none => m ++ [(h, fmt)]
  | some existing =>
    if format_score existing < format_score fmt then
      m.map (fun p => if p.1 = h then (h, fmt) else p)
    else m

def classify_step (acc : List (Int × RawFormat) × List RawFormat)
    (ofmt : Option RawFormat) : List (Int × RawFormat) × List RawFormat :=
  match ofmt with
  | none => acc
  | some fmt =>
    if format_idOf fmt = "" then acc
    else
      let acc₁ :=
        if vcodecOf fmt ≠ "none" ∧ 0 < heightOf fmt then
          (vbhUpdate acc.1 (heightOf fmt) fmt, acc.2)
        else acc
      if vcodecOf fmt = "none" ∧ acodecOf fmt ≠ "none" then
        (acc₁.1, acc₁.2 ++ [fmt])
      else acc₁

/-- The partitioning loop over the raw `formats` array. -/
def classify_formats (formats : List (Option RawFormat)) :
    List (Int × RawFormat) × List RawFormat :=
  formats.foldl classify_step ([], [])

def video_by_height (formats : List (Option RawFormat)) : List (Int × RawFormat) :=
  (classify_formats formats).1

def audio_candidates (formats : List (Option RawFormat)) : List RawFormat :=
  (classify_formats formats).2

/-- Descending order on heights, as a total preorder for the stable sort. -/
def heightDesc (a b : Int) : Prop := b ≤ a

instance : DecidableRel heightDesc := fun a b => inferInstanceAs (Decidable (b ≤ a))

instance : IsTotal Int heightDesc := ⟨fun a b => le_total b a⟩

instance : IsTrans Int heightDesc := ⟨fun _ _ _ hab hbc => le_trans hbc hab⟩

/-- Descending order on `format_score`, as a total preorder. -/
def scoreDesc (a b : RawFormat) : Prop := format_score b ≤ format_score a

instance : DecidableRel scoreDesc :=
  fun a b => inferInstanceAs (Decidable (format_score b ≤ format_score a))

instance : IsTotal RawFormat scoreDesc := ⟨fun a b => le_total (format_score b) (format_score a)⟩

instance : IsTrans RawFormat scoreDesc := ⟨fun _ _ _ hab hbc => le_trans hbc hab⟩

/-- `sorted(video_by_height.keys(), reverse=True)`; `List.insertionSort` is
a stable sort, hence equal to CPython's stable sort on the same key order. -/
def sorted_heights (formats : List (Option RawFormat)) : List Int :=
  List.insertionSort heightDesc ((video_by_height formats).map Prod.fst)

/-- The per-height loop source: the top five heights in descending order,
each paired with `video_by_height[height]`. -/
def selected_videos (formats : List (Option RawFormat)) : List (Int × RawFormat) :=
  ((sorted_heights formats).take 5).filterMap
    (fun h => ((video_by_height formats).lookup h).map (fun fmt => (h, fmt)))

/-- `audio_candidates.sort(key=format_score, reverse=True)` followed by the
`[:5]` slice. -/
def sorted_audio (formats : List (Option RawFormat)) : List RawFormat :=
  (List.insertionSort scoreDesc (audio_candidates formats)).take 5

/-- A user-facing download option. -/
structure DownloadOption where
  value : String
  label : String
  mode : String
deriving DecidableEq, Repr

/-- The selector string and label of one selected video format: selector
`format_id` when the format carries audio (label `Video {h}p`), otherwise
`format_id+bestaudio/best` when ffmpeg is available (label
`Video {h}p + audio`), otherwise plain `format_id`; the parenthetical
suffix lists `video-only` (no audio, no ffmpeg) and the uppercased
extension (whenever non-empty). -/
def video_option_parts (has_ffmpeg : Bool) (height : Int) (fmt : RawFormat) :
    String × String :=
  let format_id := format_idOf fmt
  let ext := extOf fmt
  let has_audio := acodecOf fmt ≠ "none"
  let selLabel :=
    if has_audio then (format_id, "Video " ++ toString height ++ "p")
    else if has_ffmpeg then
      (format_id ++ "+bestaudio/best", "Video " ++ toString height ++ "p + audio")
    else (format_id, "Video " ++ toString height ++ "p")
  let suffix_parts : List String :=
    (if ¬has_audio ∧ has_ffmpeg = false then ["video-only"] else []) ++
      (if ext ≠ "" then [ext] else [])
  if suffix_parts ≠ [] then
    (selLabel.1, selLabel.2 ++ " (" ++ String.intercalate ", " suffix_parts ++ ")")
  else selLabel

/-- The `options.append({...})` record of the video loop. -/
def mkVideoOption (has_ffmpeg : Bool) (p : Int × RawFormat) : DownloadOption :=
  ⟨format_idOf p.2, (video_option_parts has_ffmpeg p.1 p.2).2, "video"⟩

/-- The label of one audio option: `Audio`, then ` {abr} kbps` when the
rounded average bitrate is derivable and non-zero, then ` ({EXT})` when the
extension is non-empty. -/
def audio_option_label (fmt : RawFormat) : String :=
  let base := "Audio"
  let base :=
    match abrOf fmt with
    | some a => if a ≠ 0 then base ++ " " ++ toString a ++ " kbps" else base
    | none => base
  let ext := extOf fmt
  if ext ≠ "" then base ++ " (" ++ ext ++ ")" else base

/-- The `options.append({...})` record of the audio loop. -/
def mkAudioOption (fmt : RawFormat) : DownloadOption :=
  ⟨format_idOf fmt, audio_option_label fmt, "audio"⟩

/-- The mutable state of `build_download_options`: the option list, the
selector map (an insertion-ordered association list, modelling the Python
dict), and the `seen_values` set (modelled as the list of values in
insertion order). -/
structure SelState where
  options : List DownloadOption
  selector_map : List (String × String)
  seen_values : List String
deriving Repr

/-- Python dict assignment `m[k] = v`: update in place when the key is
present, append otherwise. -/
def dictSet (m : List (String × String)) (k v : String) : List (String × String) :=
  if (m.lookup k).isSome then m.map (fun p => if p.1 = k then (k, v) else p)
  else m ++ [(k, v)]

/-- One iteration of the video emission loop. -/
def video_step (has_ffmpeg : Bool) (st : SelState) (p : Int × RawFormat) : SelState :=
  let format_id := format_idOf p.2
  if format_id = "" ∨ format_id ∈ st.seen_values then st
  else
    { options := st.options ++ [mkVideoOption has_ffmpeg p],
      selector_map := dictSet st.selector_map format_id (video_option_parts has_ffmpeg p.1 p.2).1,
      seen_values := st.seen_values ++ [format_id] }

/-- One iteration of the audio emission loop (selector is the format's own
identifier). -/
def audio_step (st : SelState) (fmt : RawFormat) : SelState :=
  let format_id := format_idOf fmt
  if format_id = "" ∨ format_id ∈ st.seen_values then st
  else
    { options := st.options ++ [mkAudioOption fmt],
      selector_map := dictSet st.selector_map format_id format_id,
      seen_values := st.seen_values ++ [format_id] }

/-- The selector of the baseline `best` option. -/
def best_selector (has_ffmpeg : Bool) : String :=
  if has_ffmpeg then "bestvideo*+bestaudio/best" else "best"

def best_option : DownloadOption := ⟨"best", "Best available", "auto"⟩

/-- `build_download_options`: the baseline `best` option, then the video
loop over the five best heights, then the audio loop over the five best
audio-only candidates. -/
def build_download_options (item : MediaItem) (has_ffmpeg : Bool) :
    List DownloadOption × List (String × String) :=
  let options := [best_option]
  let selector_map := [("best", best_selector has_ffmpeg)]
  match item.formats with
  | none => (options, selector_map)
  | some formats =>
    let st : SelState := ⟨options, selector_map, ["best"]⟩
    let st := (selected_videos formats).foldl (video_step has_ffmpeg) st
    let st := (sorted_audio formats).foldl audio_step st
    (st.options, st.selector_map)

/-! ## Entry flattener (`flatten_entries`) -/

/-- A raw extractor item, restricted to the key `flatten_entries` reads
(`entries`); `tag` stands for all remaining item content and gives items an
identity.  `entries = none` models an absent key or `None`; a `none`
element models a falsy entry (`None` or an empty dict). -/
inductive RawItem where
  | mk (entries : Option (List (Option RawItem))) (tag : Nat)

/-- `info.get("entries")`. -/
def RawItem.entriesOf : RawItem → Option (List (Option RawItem))
  | .mk e _ => e

/-- The loop body of `flatten_entries`: a falsy entry is skipped; an entry
with a truthy nested `entries` list contributes its truthy nested entries;
any other entry contributes itself. -/
def flatten_step (acc : List RawItem) (oe : Option RawItem) : List RawItem :=
  match oe with
  | none => acc
  | some e =>
    match e.entriesOf with
    | none => acc ++ [e]
    | some [] => acc ++ [e]
    | some nested => acc ++ nested.filterMap id

/-- `flatten_entries`: no (or a falsy) `entries` list returns `[info]`;
otherwise the loop over the direct entries runs, and an empty result falls
back to `[info]` (`return flat or [info]`). -/
def flatten_entries (info : RawItem) : List RawItem :=
  match info.entriesOf with
  | none => [info]
  | some [] => [info]
  | some entries =>
    let flat := entries.foldl flatten_step []
    match flat with
    | [] => [info]
    | _ => flat

/-! ## Title normalization (`normalize_title`) -/

/-- `re.sub(r"\s+", " ", s)`: every maximal whitespace run becomes a single
space.  The flag records whether the previous character was part of a
whitespace run already replaced. -/
def collapseWsAux : List Char → Bool → List Char
  | [], _ => []
  | c :: cs, prevWs =>
    if pyIsSpace c then
      if prevWs then collapseWsAux cs true else ' ' :: collapseWsAux cs true
    else c :: collapseWsAux cs false

def collapse_ws (s : String) : String :=
  ⟨collapseWsAux s.data false⟩

/-- `normalize_title`: strip the raw title when it is truthy, substitute
the fallback otherwise, collapse whitespace, truncate to 100 characters. -/
def normalize_title (raw fallback : String) : String :=
  let title := if raw ≠ "" then pyStrip raw else fallback
  (collapse_ws title).take 100

/-! ## Download job (`run_download`) -/

/-- One path produced by the recursive workspace scan
(`output_dir.rglob("*")`): its final name component, whether it is a
regular file, and its modification time. -/
structure FSEntry where
  name : String
  is_file : Bool
  mtime : Int
deriving DecidableEq, Repr

/-- Descending order on modification times, as a total preorder. -/
def mtimeDesc (a b : FSEntry) : Prop := b.mtime ≤ a.mtime

instance : DecidableRel mtimeDesc := fun a b => inferInstanceAs (Decidable (b.mtime ≤ a.mtime))

instance : IsTotal FSEntry mtimeDesc := ⟨fun a b => le_total b.mtime a.mtime⟩

instance : IsTrans FSEntry mtimeDesc := ⟨fun _ _ _ hab hbc => le_trans hbc hab⟩

/-- The command line built by `run_download` before invoking yt-dlp. -/
def download_cmd (cookiesFile url : String) (item_count : Int) (index : Option Int)
    (output_dir : String) (format_selector : Option String) : List String :=
  yt_dlp_base_args cookiesFile ++
    ["--restrict-filenames", "-P", output_dir, "-o", "%(title).80s.%(ext)s"] ++
    (match format_selector with
     | some f => if f ≠ "" then ["-f", f] else []
     | none => []) ++
    (if 1 < item_count ∧ index.isSome then ["--playlist-items", toString (index.getD 0)]
     else if item_count ≤ 1 then ["--no-playlist"] else []) ++
    [url]

/-- `run_download`: invoke yt-dlp (with the certificate retry of
`run_yt_dlp_command`), fail on a non-zero exit, then scan the workspace
listing for regular files whose name does not end in `.part`, fail when
none remain, and return the first file of the stable mtime-descending sort.
The emptiness check and the `files[0]` access are folded into one match:
the sorted list is empty exactly when the filtered list is. -/
def run_download (runner : List String → CompletedProcess) (cookiesFile url : String)
    (item_count : Int) (index : Option Int) (output_dir : String)
    (format_selector : Option String) (listing : List FSEntry) : Except String FSEntry :=
  let cmd := download_cmd cookiesFile url item_count index output_dir format_selector
  let proc := (run_yt_dlp_command runner cmd).1
  if proc.returncode ≠ 0 then .error (failure_message proc "Download failed")
  else
    let files := listing.filter (fun p => p.is_file && !(pyEndsWith p.name ".part"))
    match List.insertionSort mtimeDesc files with
    | [] => .error "Download finished but no file was produced."
    | f :: _ => .ok f

/-! ## Helper lemmas -/

theorem lookup_eq_none_iff {β : Type} (m : List (String × β)) (k : String) :
    m.lookup k = none ↔ k ∉ m.map Prod.fst := by
  induction m with
  | nil => simp [List.lookup]
  | cons p m ih =>
    obtain ⟨a, b⟩ := p
    by_cases h : k = a
    · subst h; simp [List.lookup]
    · have hbeq : (k == a) = false := by simp [h]
      simp [List.lookup, hbeq, h, ih]

theorem lookup_int_eq_none_iff {β : Type} (m : List (Int × β)) (k : Int) :
    m.lookup k = none ↔ k ∉ m.map Prod.fst := by
  induction m with
  | nil => simp [List.lookup]
  | cons p m ih =>
    obtain ⟨a, b⟩ := p
    by_cases h : k = a
    · subst h; simp [List.lookup]
    · have hbeq : (k == a) = false := by simp [h]
      simp [List.lookup, hbeq, h, ih]

theorem dictSet_fresh (m : List (String × String)) (k v : String)
    (h : k ∉ m.map Prod.fst) : dictSet m k v = m ++ [(k, v)] := by
  unfold dictSet
  rw [(lookup_eq_none_iff m k).mpr h]
  rfl

/-! ## C9: blank titles and the fallback -/

set_option maxRecDepth 8192 in
/-- Claim C9: for every raw title that is non-empty but consists only of
whitespace, `normalize_title` returns the empty string rather than the
fallback; whenever the raw title is non-empty the fallback is never
consulted (the result does not depend on it). -/
theorem normalize_title_blank_not_fallback (raw fb fb' : String) (hne : raw ≠ "") :
    normalize_title raw fb = normalize_title raw fb' ∧
    (raw.data.all pyIsSpace = true → normalize_title raw fb = "") := by
  constructor
  · unfold normalize_title
    rw [if_pos hne, if_pos hne]
  · intro hblank
    unfold normalize_title
    rw [if_pos hne]
    have hdrop : raw.data.dropWhile pyIsSpace = [] :=
      List.dropWhile_eq_nil_iff.mpr (fun x hx => List.all_eq_true.mp hblank x hx)
    have hstrip : pyStrip raw = "" := by
      unfold pyStrip pyStripList
      rw [hdrop]
      rfl
    rw [hstrip]
    rfl

/-- Witness for C9 at the blank title `" \t "`. -/
theorem normalize_title_blank_not_fallback_witness :
    normalize_title " \t " "fallback" = normalize_title " \t " "other" ∧
    normalize_title " \t " "fallback" = "" :=
  ⟨(normalize_title_blank_not_fallback " \t " "fallback" "other" (by decide)).1,
   (normalize_title_blank_not_fallback " \t " "fallback" "other" (by decide)).2 (by decide)⟩

/-! ## C6: the certificate-verification retry policy -/

/-- Claim C6: when the first invocation fails and its failure message
matches a TLS certificate-verification substring (case-insensitively),
exactly one retry runs with `--no-check-certificates` inserted, and the
retry's result is returned whether it succeeded or not; a failure that does
not match is returned immediately with no retry.  The hypothesis that the
original command does not already carry `--no-check-certificates` holds at
both call sites, which build the command from `yt_dlp_base_args`. -/
theorem run_yt_dlp_command_retry_policy (runner : List String → CompletedProcess)
    (cmd : List String) (hflag : "--no-check-certificates" ∉ cmd) :
    ((runner cmd).returncode ≠ 0 →
      is_certificate_verify_error (failure_message (runner cmd) "yt-dlp failed") = true →
      run_yt_dlp_command runner cmd =
        (runner (pyInsertSecond cmd "--no-check-certificates"),
         [cmd, pyInsertSecond cmd "--no-check-certificates"])) ∧
    ((runner cmd).returncode ≠ 0 →
      is_certificate_verify_error (failure_message (runner cmd) "yt-dlp failed") = false →
      run_yt_dlp_command runner cmd = (runner cmd, [cmd])) := by
  constructor
  · intro hrc hcert
    unfold run_yt_dlp_command
    rw [if_neg hrc, if_pos ⟨hflag, hcert⟩]
  · intro hrc hcert
    unfold run_yt_dlp_command
    rw [if_neg hrc, if_neg (fun hpos => by rw [hcert] at hpos; exact Bool.false_ne_true hpos.2)]

/-- A subprocess oracle that fails with a certificate error unless
`--no-check-certificates` is passed. -/
def certFailRunner : List String → CompletedProcess :=
  fun cmd =>
    if "--no-check-certificates" ∈ cmd then ⟨0, "{}", ""⟩
    else ⟨1, "", "CERTIFICATE_VERIFY_FAILED"⟩

set_option maxRecDepth 8192 in
/-- Witness for C6: against `certFailRunner` the command is retried exactly
once, with the flag inserted at position 1, and the retry result is
returned. -/
theorem run_yt_dlp_command_retry_policy_witness :
    run_yt_dlp_command certFailRunner ["yt-dlp", "--no-warnings", "u"] =
      (⟨0, "{}", ""⟩,
       [["yt-dlp", "--no-warnings", "u"],
        ["yt-dlp", "--no-check-certificates", "--no-warnings", "u"]]) := by
  have h := (run_yt_dlp_command_retry_policy certFailRunner ["yt-dlp", "--no-warnings", "u"]
    (by decide)).1 (by decide) (by decide)
  rw [h]
  rfl

/-! ## C3: flattening with empty inner entry lists -/

/-- Counterexample to claim C3: a root with one truthy direct entry whose
`entries` list is empty flattens to the direct entry itself, not to
`[root]` — an entry with a falsy nested list is appended as its own item by
the loop, so the result is non-empty and the `[root]` fallback never
fires. -/
theorem flatten_entries_empty_inner_counterexample :
    flatten_entries (RawItem.mk (some [some (RawItem.mk (some []) 1)]) 0) =
      [RawItem.mk (some []) 1] ∧
    [RawItem.mk (some []) 1] ≠ [RawItem.mk (some [some (RawItem.mk (some []) 1)]) 0] := by
  refine ⟨rfl, ?_⟩
  intro hcontra
  injection hcontra with h1 h2
  injection h1 with he ht
  exact absurd ht (by decide)

/-- Claim C3, amended: for a root whose direct entries are each truthy and
each carry an empty nested entry list, `flatten_entries` returns the direct
entries themselves (the `[root]` fallback fires only when the loop result
is empty, e.g. when every nested list is non-empty but holds only falsy
items). -/
theorem flatten_entries_empty_inner_amended (root : RawItem)
    (l : List (Option RawItem)) (hroot : root.entriesOf = some l) (hne : l ≠ [])
    (hinner : ∀ oe ∈ l, ∃ e : RawItem, oe = some e ∧ e.entriesOf = some []) :
    flatten_entries root = l.filterMap id := by
  have hfold : ∀ (es : List (Option RawItem)) (acc : List RawItem),
      (∀ oe ∈ es, ∃ e : RawItem, oe = some e ∧ e.entriesOf = some []) →
      es.foldl flatten_step acc = acc ++ es.filterMap id := by
    intro es
    induction es with
    | nil => intro acc _; simp
    | cons oe es ih =>
      intro acc hall
      obtain ⟨e, rfl, he⟩ := hall oe (List.mem_cons_self _ _)
      rw [List.foldl_cons]
      have hstep : flatten_step acc (some e) = acc ++ [e] := by
        simp only [flatten_step, he]
      rw [hstep, ih _ (fun x hx => hall x (List.mem_cons_of_mem _ hx))]
      simp
  cases l with
  | nil => exact absurd rfl hne
  | cons oe l' =>
    obtain ⟨e, rfl, he⟩ := hinner oe (List.mem_cons_self _ _)
    have hflat : (some e :: l').foldl flatten_step [] = e :: l'.filterMap id := by
      rw [hfold _ _ hinner]
      simp
    simp only [flatten_entries, hroot, hflat]
    simp

/-- Witness for the amended C3: a root with two direct entries, each with
an empty nested list, flattens to those two entries. -/
theorem flatten_entries_empty_inner_amended_witness :
    flatten_entries
        (RawItem.mk (some [some (RawItem.mk (some []) 1), some (RawItem.mk (some []) 2)]) 0) =
      [RawItem.mk (some []) 1, RawItem.mk (some []) 2] := by
  have h := flatten_entries_empty_inner_amended
    (RawItem.mk (some [some (RawItem.mk (some []) 1), some (RawItem.mk (some []) 2)]) 0)
    [some (RawItem.mk (some []) 1), some (RawItem.mk (some []) 2)]
    rfl (by simp)
    (by
      intro oe hoe
      rcases List.mem_cons.mp hoe with rfl | hoe
      · exact ⟨_, rfl, rfl⟩
      rcases List.mem_cons.mp hoe with rfl | hoe
      · exact ⟨_, rfl, rfl⟩
      exact absurd hoe (List.not_mem_nil _))
  simpa using h

/-! ## C5: same-height tie goes to the strictly higher score -/

/-- Claim C5: among two video-capable formats with the same positive
height, the partitioning loop stores the one whose score
(tbr + fps/1000, absent values as 0) is strictly higher, in either
arrival order. -/
theorem video_by_height_keeps_higher_score (f₁ f₂ : RawFormat) (h : Int)
    (hv₁ : vcodecOf f₁ ≠ "none") (hv₂ : vcodecOf f₂ ≠ "none")
    (hid₁ : format_idOf f₁ ≠ "") (hid₂ : format_idOf f₂ ≠ "")
    (hh₁ : heightOf f₁ = h) (hh₂ : heightOf f₂ = h) (hpos : 0 < h)
    (hsc : format_score f₂ < format_score f₁) :
    video_by_height [some f₁, some f₂] = [(h, f₁)] ∧
    video_by_height [some f₂, some f₁] = [(h, f₁)] := by
  have hcond₁ : vcodecOf f₁ ≠ "none" ∧ 0 < heightOf f₁ := ⟨hv₁, by rw [hh₁]; exact hpos⟩
  have hcond₂ : vcodecOf f₂ ≠ "none" ∧ 0 < heightOf f₂ := ⟨hv₂, by rw [hh₂]; exact hpos⟩
  have hna₁ : ¬(vcodecOf f₁ = "none" ∧ acodecOf f₁ ≠ "none") := fun hc => hv₁ hc.1
  have hna₂ : ¬(vcodecOf f₂ = "none" ∧ acodecOf f₂ ≠ "none") := fun hc => hv₂ hc.1
  have hnotlt : ¬(format_score f₁ < format_score f₂) := not_lt.mpr (le_of_lt hsc)
  have e₁ : classify_step ([], []) (some f₁) = ([(h, f₁)], []) := by
    simp only [classify_step]
    rw [if_neg hid₁, if_pos hcond₁, if_neg hna₁, hh₁]
    rfl
  have e₁' : classify_step ([], []) (some f₂) = ([(h, f₂)], []) := by
    simp only [classify_step]
    rw [if_neg hid₂, if_pos hcond₂, if_neg hna₂, hh₂]
    rfl
  have hlk₁ : List.lookup h [(h, f₁)] = some f₁ := by simp [List.lookup]
  have hlk₂ : List.lookup h [(h, f₂)] = some f₂ := by simp [List.lookup]
  have e₂ : classify_step ([(h, f₁)], []) (some f₂) = ([(h, f₁)], []) := by
    simp only [classify_step]
    rw [if_neg hid₂, if_pos hcond₂, if_neg hna₂, hh₂]
    simp only [vbhUpdate, hlk₁]
    rw [if_neg hnotlt]
  have e₂' : classify_step ([(h, f₂)], []) (some f₁) = ([(h, f₁)], []) := by
    simp only [classify_step]
    rw [if_neg hid₁, if_pos hcond₁, if_neg hna₁, hh₁]
    simp only [vbhUpdate, hlk₂]
    rw [if_pos hsc]
    simp
  constructor
  · unfold video_by_height classify_formats
    rw [List.foldl_cons, e₁, List.foldl_cons, e₂, List.foldl_nil]
  · unfold video_by_height classify_formats
    rw [List.foldl_cons, e₁', List.foldl_cons, e₂', List.foldl_nil]

def c5fWin : RawFormat :=
  { RawFormat.empty with
    format_id := some "a", vcodec := some "avc1", height := some 1080, tbr := some 1200 }

def c5fLose : RawFormat :=
  { RawFormat.empty with
    format_id := some "b", vcodec := some "vp9", height := some 1080, tbr := some 1000 }

/-- Witness for C5: at height 1080 the 1200 kbps format beats the
1000 kbps one in either arrival order. -/
theorem video_by_height_keeps_higher_score_witness :
    video_by_height [some c5fWin, some c5fLose] = [(1080, c5fWin)] ∧
    video_by_height [some c5fLose, some c5fWin] = [(1080, c5fWin)] :=
  video_by_height_keeps_higher_score c5fWin c5fLose 1080 (by decide) (by decide)
    (by decide) (by decide) (by decide) (by decide) (by decide)
    (by norm_num [format_score, c5fWin, c5fLose, RawFormat.empty])

/-! ## C8: locating the downloaded file -/

/-- Claim C8: when the subprocess exits successfully, `run_download` keeps
only regular files whose name does not end in `.part`; with none left it
fails with the fixed message, otherwise it returns a kept file of maximal
modification time. -/
theorem run_download_locates_newest (runner : List String → CompletedProcess)
    (cookiesFile url : String) (item_count : Int) (index : Option Int)
    (output_dir : String) (format_selector : Option String) (listing : List FSEntry)
    (hok : ((run_yt_dlp_command runner
        (download_cmd cookiesFile url item_count index output_dir format_selector)).1).returncode = 0) :
    (listing.filter (fun p => p.is_file && !(pyEndsWith p.name ".part")) = [] →
      run_download runner cookiesFile url item_count index output_dir format_selector listing =
        .error "Download finished but no file was produced.") ∧
    (listing.filter (fun p => p.is_file && !(pyEndsWith p.name ".part")) ≠ [] →
      ∃ f,
        run_download runner cookiesFile url item_count index output_dir format_selector
          listing = .ok f ∧
        f ∈ listing.filter (fun p => p.is_file && !(pyEndsWith p.name ".part")) ∧
        ∀ g ∈ listing.filter (fun p => p.is_file && !(pyEndsWith p.name ".part")),
          g.mtime ≤ f.mtime) := by
  simp only [run_download]
  rw [if_neg (not_not.mpr hok)]
  constructor
  · intro hnil
    rw [hnil]
    rfl
  · intro hne
    have hperm := List.perm_insertionSort mtimeDesc
      (listing.filter (fun p => p.is_file && !(pyEndsWith p.name ".part")))
    cases hs : List.insertionSort mtimeDesc
        (listing.filter (fun p => p.is_file && !(pyEndsWith p.name ".part"))) with
    | nil =>
      exact absurd (List.Perm.eq_nil (hs ▸ hperm).symm) hne
    | cons f rest =>
      refine ⟨f, rfl, ?_, ?_⟩
      · exact hperm.mem_iff.mp (hs ▸ List.mem_cons_self f rest)
      · intro g hg
        have hgs : g ∈ f :: rest := hs ▸ hperm.mem_iff.mpr hg
        rcases List.mem_cons.mp hgs with rfl | hgrest
        · exact le_refl _
        · have hsorted := List.sorted_insertionSort mtimeDesc
            (listing.filter (fun p => p.is_file && !(pyEndsWith p.name ".part")))
          rw [hs] at hsorted
          exact List.rel_of_sorted_cons hsorted g hgrest

def c8runner : List String → CompletedProcess := fun _ => ⟨0, "", ""⟩

def c8listing : List FSEntry :=
  [⟨"a.mp4", true, 5⟩, ⟨"b.mkv", true, 9⟩, ⟨"c.mp4.part", true, 99⟩, ⟨"dir", false, 99⟩]

set_option maxRecDepth 8192 in
/-- Witness for C8: among two surviving files the one with the larger
mtime is returned; the `.part` artifact and the directory are excluded. -/
theorem run_download_locates_newest_witness :
    ∃ f,
      run_download c8runner "" "u" 1 none "/tmp/x" none c8listing = .ok f ∧
      f ∈ c8listing.filter (fun p => p.is_file && !(pyEndsWith p.name ".part")) ∧
      ∀ g ∈ c8listing.filter (fun p => p.is_file && !(pyEndsWith p.name ".part")),
        g.mtime ≤ f.mtime :=
  (run_download_locates_newest c8runner "" "u" 1 none "/tmp/x" none c8listing rfl).2
    (by decide)

/-! ## The emission-state invariant of `build_download_options` -/

/-- The loop invariant of the two emission loops: `seen_values` and the
selector-map keys both coincide (as lists) with the option values, the
option values are pairwise distinct, and no option has an empty value. -/
def goodState (st : SelState) : Prop :=
  st.seen_values = st.options.map DownloadOption.value ∧
  st.selector_map.map Prod.fst = st.options.map DownloadOption.value ∧
  (st.options.map DownloadOption.value).Nodup ∧
  "" ∉ st.options.map DownloadOption.value

theorem video_foldl_spec (hf : Bool) (l : List (Int × RawFormat)) :
    ∀ st : SelState, goodState st →
      ∃ sub : List (Int × RawFormat),
        sub.Sublist l ∧
        l.foldl (video_step hf) st =
          ⟨st.options ++ sub.map (mkVideoOption hf),
           st.selector_map ++
             sub.map (fun p => (format_idOf p.2, (video_option_parts hf p.1 p.2).1)),
           st.seen_values ++ sub.map (fun p => format_idOf p.2)⟩ ∧
        goodState (l.foldl (video_step hf) st) := by
  induction l with
  | nil =>
    intro st hst
    exact ⟨[], List.Sublist.refl _, by cases st; simp, hst⟩
  | cons p l ih =>
    intro st hst
    rw [List.foldl_cons]
    by_cases hguard : format_idOf p.2 = "" ∨ format_idOf p.2 ∈ st.seen_values
    · have hstep : video_step hf st p = st := by
        simp only [video_step]
        rw [if_pos hguard]
      rw [hstep]
      obtain ⟨sub, hsub, heq, hgood⟩ := ih st hst
      exact ⟨sub, hsub.cons _, heq, hgood⟩
    · push_neg at hguard
      obtain ⟨hid, hseen⟩ := hguard
      have hnotval : format_idOf p.2 ∉ st.options.map DownloadOption.value := by
        rw [← hst.1]; exact hseen
      have hfresh : format_idOf p.2 ∉ st.selector_map.map Prod.fst := by
        rw [hst.2.1]; exact hnotval
      have hstep : video_step hf st p =
          ⟨st.options ++ [mkVideoOption hf p],
           st.selector_map ++ [(format_idOf p.2, (video_option_parts hf p.1 p.2).1)],
           st.seen_values ++ [format_idOf p.2]⟩ := by
        simp only [video_step]
        rw [if_neg (not_or.mpr ⟨hid, hseen⟩), dictSet_fresh _ _ _ hfresh]
      have hgood' : goodState ⟨st.options ++ [mkVideoOption hf p],
          st.selector_map ++ [(format_idOf p.2, (video_option_parts hf p.1 p.2).1)],
          st.seen_values ++ [format_idOf p.2]⟩ := by
        refine ⟨?_, ?_, ?_, ?_⟩
        · simp [hst.1, mkVideoOption]
        · simp [hst.2.1, mkVideoOption]
        · simp [List.nodup_append, hst.2.2.1, mkVideoOption, hnotval]
        · simp only [List.map_append, List.mem_append]
          rintro (hmem | hmem)
          · exact hst.2.2.2 hmem
          · simp [mkVideoOption] at hmem
            exact hid hmem.symm
      rw [hstep]
      obtain ⟨sub, hsub, heq, hgood⟩ := ih _ hgood'
      refine ⟨p :: sub, hsub.cons₂ _, ?_, hgood⟩
      rw [heq]
      simp [List.append_assoc]

theorem audio_foldl_spec (l : List RawFormat) :
    ∀ st : SelState, goodState st →
      ∃ sub : List RawFormat,
        sub.Sublist l ∧
        l.foldl audio_step st =
          ⟨st.options ++ sub.map mkAudioOption,
           st.selector_map ++ sub.map (fun fmt => (format_idOf fmt, format_idOf fmt)),
           st.seen_values ++ sub.map (fun fmt => format_idOf fmt)⟩ ∧
        goodState (l.foldl audio_step st) := by
  induction l with
  | nil =>
    intro st hst
    exact ⟨[], List.Sublist.refl _, by cases st; simp, hst⟩
  | cons fmt l ih =>
    intro st hst
    rw [List.foldl_cons]
    by_cases hguard : format_idOf fmt = "" ∨ format_idOf fmt ∈ st.seen_values
    · have hstep : audio_step st fmt = st := by
        simp only [audio_step]
        rw [if_pos hguard]
      rw [hstep]
      obtain ⟨sub, hsub, heq, hgood⟩ := ih st hst
      exact ⟨sub, hsub.cons _, heq, hgood⟩
    · push_neg at hguard
      obtain ⟨hid, hseen⟩ := hguard
      have hnotval : format_idOf fmt ∉ st.options.map DownloadOption.value := by
        rw [← hst.1]; exact hseen
      have hfresh : format_idOf fmt ∉ st.selector_map.map Prod.fst := by
        rw [hst.2.1]; exact hnotval
      have hstep : audio_step st fmt =
          ⟨st.options ++ [mkAudioOption fmt],
           st.selector_map ++ [(format_idOf fmt, format_idOf fmt)],
           st.seen_values ++ [format_idOf fmt]⟩ := by
        simp only [audio_step]
        rw [if_neg (not_or.mpr ⟨hid, hseen⟩), dictSet_fresh _ _ _ hfresh]
      have hgood' : goodState ⟨st.options ++ [mkAudioOption fmt],
          st.selector_map ++ [(format_idOf fmt, format_idOf fmt)],
          st.seen_values ++ [format_idOf fmt]⟩ := by
        refine ⟨?_, ?_, ?_, ?_⟩
        · simp [hst.1, mkAudioOption]
        · simp [hst.2.1, mkAudioOption]
        · simp [List.nodup_append, hst.2.2.1, mkAudioOption, hnotval]
        · simp only [List.map_append, List.mem_append]
          rintro (hmem | hmem)
          · exact hst.2.2.2 hmem
          · simp [mkAudioOption] at hmem
            exact hid hmem.symm
      rw [hstep]
      obtain ⟨sub, hsub, heq, hgood⟩ := ih _ hgood'
      refine ⟨fmt :: sub, hsub.cons₂ _, ?_, hgood⟩
      rw [heq]
      simp [List.append_assoc]

/-- The shape of a `build_download_options` result: the `best` entry first,
then a dedup-filtered sublist of the selected video pairs, then one of the
sorted audio candidates, with the selector map exactly parallel, and the
three uniqueness invariants. -/
theorem build_download_options_master (item : MediaItem) (hf : Bool) :
    ∃ (subv : List (Int × RawFormat)) (suba : List RawFormat),
      subv.Sublist (selected_videos (item.formats.getD [])) ∧
      suba.Sublist (sorted_audio (item.formats.getD [])) ∧
      (build_download_options item hf).1 =
        best_option :: (subv.map (mkVideoOption hf) ++ suba.map mkAudioOption) ∧
      (build_download_options item hf).2 =
        ("best", best_selector hf) ::
          (subv.map (fun p => (format_idOf p.2, (video_option_parts hf p.1 p.2).1)) ++
            suba.map (fun fmt => (format_idOf fmt, format_idOf fmt))) ∧
      ((build_download_options item hf).1.map DownloadOption.value).Nodup ∧
      (build_download_options item hf).2.map Prod.fst =
        (build_download_options item hf).1.map DownloadOption.value ∧
      "" ∉ (build_download_options item hf).1.map DownloadOption.value := by
  have hst0 : goodState ⟨[best_option], [("best", best_selector hf)], ["best"]⟩ := by
    refine ⟨rfl, rfl, by simp, by simp [best_option]⟩
  cases hfor : item.formats with
  | none =>
    refine ⟨[], [], List.nil_sublist _, List.nil_sublist _, ?_, ?_, ?_, ?_, ?_⟩ <;>
      simp [build_download_options, hfor, best_option]
  | some fs =>
    obtain ⟨subv, hsubv, heq1, hgood1⟩ :=
      video_foldl_spec hf (selected_videos fs) ⟨[best_option], [("best", best_selector hf)], ["best"]⟩ hst0
    obtain ⟨suba, hsuba, heq2, hgood2⟩ :=
      audio_foldl_spec (sorted_audio fs)
        ((selected_videos fs).foldl (video_step hf)
          ⟨[best_option], [("best", best_selector hf)], ["best"]⟩) hgood1
    have hbuild : build_download_options item hf =
        (((sorted_audio fs).foldl audio_step
            ((selected_videos fs).foldl (video_step hf)
              ⟨[best_option], [("best", best_selector hf)], ["best"]⟩)).options,
         ((sorted_audio fs).foldl audio_step
            ((selected_videos fs).foldl (video_step hf)
              ⟨[best_option], [("best", best_selector hf)], ["best"]⟩)).selector_map) := by
      simp [build_download_options, hfor]
    refine ⟨subv, suba, by simpa [hfor] using hsubv, by simpa [hfor] using hsuba, ?_, ?_, ?_, ?_, ?_⟩
    · rw [hbuild]
      show (List.foldl audio_step _ (sorted_audio fs)).options = _
      rw [heq2, heq1]
      simp [List.append_assoc]
    · rw [hbuild]
      show (List.foldl audio_step _ (sorted_audio fs)).selector_map = _
      rw [heq2, heq1]
      simp [List.append_assoc]
    · rw [hbuild]
      exact hgood2.2.2.1
    · rw [hbuild]
      exact hgood2.2.1
    · rw [hbuild]
      exact hgood2.2.2.2

/-! ## Keys of `video_by_height` and order of the selected candidates -/

theorem vbhUpdate_keys_nodup (m : List (Int × RawFormat)) (h : Int) (fmt : RawFormat)
    (hm : (m.map Prod.fst).Nodup) : ((vbhUpdate m h fmt).map Prod.fst).Nodup := by
  cases hl : m.lookup h with
  | none =>
    have hnot : h ∉ m.map Prod.fst := (lookup_int_eq_none_iff m h).mp hl
    simp [vbhUpdate, hl, List.nodup_append, hm, hnot]
  | some e =>
    by_cases hc : format_score e < format_score fmt
    · have hkeys : (m.map (fun p => if p.1 = h then (h, fmt) else p)).map Prod.fst =
          m.map Prod.fst := by
        rw [List.map_map]
        apply List.map_congr_left
        intro p _
        by_cases hp : p.1 = h
        · simp [hp]
        · simp [hp]
      simp only [vbhUpdate, hl, if_pos hc]
      rw [hkeys]
      exact hm
    · simp only [vbhUpdate, hl, if_neg hc]
      exact hm

theorem classify_step_keys_nodup (acc : List (Int × RawFormat) × List RawFormat)
    (ofmt : Option RawFormat) (h : (acc.1.map Prod.fst).Nodup) :
    (((classify_step acc ofmt).1).map Prod.fst).Nodup := by
  cases ofmt with
  | none => exact h
  | some fmt =>
    simp only [classify_step]
    by_cases h1 : format_idOf fmt = ""
    · rw [if_pos h1]
      exact h
    · rw [if_neg h1]
      by_cases hv : vcodecOf fmt ≠ "none" ∧ 0 < heightOf fmt
      · rw [if_pos hv]
        by_cases ha : vcodecOf fmt = "none" ∧ acodecOf fmt ≠ "none"
        · rw [if_pos ha]
          exact vbhUpdate_keys_nodup _ _ _ h
        · rw [if_neg ha]
          exact vbhUpdate_keys_nodup _ _ _ h
      · rw [if_neg hv]
        by_cases ha : vcodecOf fmt = "none" ∧ acodecOf fmt ≠ "none"
        · rw [if_pos ha]
          exact h
        · rw [if_neg ha]
          exact h

theorem vbh_keys_nodup (fs : List (Option RawFormat)) :
    ((video_by_height fs).map Prod.fst).Nodup := by
  suffices hgen : ∀ (l : List (Option RawFormat)) (acc : List (Int × RawFormat) × List RawFormat),
      (acc.1.map Prod.fst).Nodup → (((l.foldl classify_step acc).1).map Prod.fst).Nodup by
    exact hgen fs ([], []) (by simp)
  intro l
  induction l with
  | nil => exact fun acc h => h
  | cons ofmt l ih =>
    intro acc h
    rw [List.foldl_cons]
    exact ih _ (classify_step_keys_nodup acc ofmt h)

theorem filterMap_lookup_map_fst (m : List (Int × RawFormat)) :
    ∀ hs : List Int, (∀ h ∈ hs, h ∈ m.map Prod.fst) →
      ((hs.filterMap (fun h => (m.lookup h).map (fun fmt => (h, fmt)))).map Prod.fst) = hs := by
  intro hs
  induction hs with
  | nil => simp
  | cons h hs ih =>
    intro hall
    have hh := hall h (List.mem_cons_self _ _)
    obtain ⟨fmt, hl⟩ : ∃ f, m.lookup h = some f := by
      cases hl : m.lookup h with
      | none => exact absurd hh ((lookup_int_eq_none_iff m h).mp hl)
      | some f => exact ⟨f, rfl⟩
    rw [List.filterMap_cons, hl]
    simp [ih (fun x hx => hall x (List.mem_cons_of_mem _ hx))]

theorem selected_videos_map_fst (fs : List (Option RawFormat)) :
    (selected_videos fs).map Prod.fst = (sorted_heights fs).take 5 := by
  unfold selected_videos
  apply filterMap_lookup_map_fst
  intro h hh
  have hmem : h ∈ sorted_heights fs := (List.take_sublist 5 _).subset hh
  simp only [sorted_heights] at hmem
  exact (List.perm_insertionSort heightDesc _).mem_iff.mp hmem

theorem selected_videos_heights_sorted (fs : List (Option RawFormat)) :
    ((selected_videos fs).map Prod.fst).Pairwise (fun a b => b < a) := by
  rw [selected_videos_map_fst]
  have hsorted : (sorted_heights fs).Pairwise heightDesc :=
    List.sorted_insertionSort heightDesc _
  have hnodup : (sorted_heights fs).Nodup := by
    unfold sorted_heights
    exact ((List.perm_insertionSort heightDesc _).nodup_iff).mpr (vbh_keys_nodup fs)
  have hstrict : (sorted_heights fs).Pairwise (fun a b => b < a) :=
    (hsorted.and hnodup).imp (fun hab => lt_of_le_of_ne hab.1 (Ne.symm hab.2))
  exact List.Pairwise.sublist (List.take_sublist 5 _) hstrict

theorem sorted_audio_scores_sorted (fs : List (Option RawFormat)) :
    ((sorted_audio fs).map format_score).Pairwise (fun a b : Rat => b ≤ a) := by
  rw [List.pairwise_map]
  unfold sorted_audio
  exact List.Pairwise.sublist (List.take_sublist 5 _)
    (List.sorted_insertionSort scoreDesc _)

theorem selected_videos_length_le (fs : List (Option RawFormat)) :
    (selected_videos fs).length ≤ 5 := by
  unfold selected_videos
  refine le_trans (List.length_filterMap_le _ _) ?_
  rw [List.length_take]
  exact min_le_left _ _

theorem sorted_audio_length_le (fs : List (Option RawFormat)) :
    (sorted_audio fs).length ≤ 5 := by
  unfold sorted_audio
  rw [List.length_take]
  exact min_le_left _ _

/-! ## C1: uniqueness and key-set invariants -/

/-- Claim C1: for every item and flag, the emitted option values are
pairwise distinct, the selector-map key set is `{best}` together with the
emitted option values, and no option carries an empty identifier (formats
with an absent or empty identifier never become options). -/
theorem build_download_options_invariants (item : MediaItem) (hf : Bool) :
    ((build_download_options item hf).1.map DownloadOption.value).Nodup ∧
    (∀ k, k ∈ (build_download_options item hf).2.map Prod.fst ↔
      (k = "best" ∨ k ∈ (build_download_options item hf).1.map DownloadOption.value)) ∧
    ∀ o ∈ (build_download_options item hf).1, o.value ≠ "" := by
  obtain ⟨subv, suba, _, _, hopts, _, hnodup, hkeys, hempty⟩ :=
    build_download_options_master item hf
  refine ⟨hnodup, ?_, ?_⟩
  · intro k
    rw [hkeys]
    constructor
    · exact fun h => Or.inr h
    · rintro (rfl | h)
      · rw [hopts]
        simp [best_option]
      · exact h
  · intro o ho hval
    apply hempty
    rw [← hval]
    exact List.mem_map_of_mem _ ho

/-- Witness for C1 at the formats-free item. -/
theorem build_download_options_invariants_witness :
    ((build_download_options ⟨none⟩ true).1.map DownloadOption.value).Nodup ∧
    ("best" ∈ (build_download_options ⟨none⟩ true).2.map Prod.fst ↔
      ("best" = "best" ∨
        "best" ∈ (build_download_options ⟨none⟩ true).1.map DownloadOption.value)) ∧
    best_option.value ≠ "" :=
  ⟨(build_download_options_invariants ⟨none⟩ true).1,
   (build_download_options_invariants ⟨none⟩ true).2.1 "best",
   (build_download_options_invariants ⟨none⟩ true).2.2 best_option
     (by simp [build_download_options])⟩

/-! ## C4: ordering and size of the option list -/

/-- Claim C4: the option list is the `best` option, then at most five video
options in strictly descending height, then at most five audio options in
descending score, for at most eleven options in total. -/
theorem build_download_options_ordering (item : MediaItem) (hf : Bool) :
    ∃ (subv : List (Int × RawFormat)) (suba : List RawFormat),
      (build_download_options item hf).1 =
        best_option :: (subv.map (mkVideoOption hf) ++ suba.map mkAudioOption) ∧
      subv.length ≤ 5 ∧ suba.length ≤ 5 ∧
      (build_download_options item hf).1.length ≤ 11 ∧
      (subv.map Prod.fst).Sorted (fun a b => b < a) ∧
      (suba.map format_score).Sorted (fun a b : Rat => b ≤ a) := by
  obtain ⟨subv, suba, hsubv, hsuba, hopts, _, _, _, _⟩ :=
    build_download_options_master item hf
  refine ⟨subv, suba, hopts, ?_, ?_, ?_, ?_, ?_⟩
  · exact le_trans hsubv.length_le (selected_videos_length_le _)
  · exact le_trans hsuba.length_le (sorted_audio_length_le _)
  · rw [hopts]
    simp only [List.length_cons, List.length_append, List.length_map]
    have h1 := le_trans hsubv.length_le (selected_videos_length_le _)
    have h2 := le_trans hsuba.length_le (sorted_audio_length_le _)
    omega
  · exact List.Pairwise.sublist (hsubv.map Prod.fst) (selected_videos_heights_sorted _)
  · exact List.Pairwise.sublist (hsuba.map format_score) (sorted_audio_scores_sorted _)

/-- Witness for C4: the option-count bound at the formats-free item. -/
theorem build_download_options_ordering_witness :
    (build_download_options ⟨none⟩ true).1.length ≤ 11 := by
  obtain ⟨_, _, _, _, _, h, _⟩ := build_download_options_ordering ⟨none⟩ true
  exact h

/-! ## C2: video labels -/

theorem intercalate_one (a : String) : String.intercalate ", " [a] = a := rfl

theorem intercalate_two (a b : String) :
    String.intercalate ", " [a, b] = a ++ ", " ++ b := rfl

/-- The selector string of a selected video format, by case. -/
theorem video_option_parts_sel (hf : Bool) (h : Int) (fmt : RawFormat) :
    (video_option_parts hf h fmt).1 =
      if acodecOf fmt ≠ "none" then format_idOf fmt
      else if hf then format_idOf fmt ++ "+bestaudio/best" else format_idOf fmt := by
  simp only [video_option_parts, apply_ite Prod.fst, ite_self]

/-- The label of a selected video format, by case: the `video-only`
qualifier appears exactly when the format lacks audio and no merge tool is
available, and the uppercased extension appears whenever it is non-empty,
regardless of merge availability. -/
theorem mkVideoOption_label_cases (hf : Bool) (p : Int × RawFormat) :
    (acodecOf p.2 ≠ "none" → extOf p.2 = "" →
      (mkVideoOption hf p).label = "Video " ++ toString p.1 ++ "p") ∧
    (acodecOf p.2 ≠ "none" → extOf p.2 ≠ "" →
      (mkVideoOption hf p).label = "Video " ++ toString p.1 ++ "p (" ++ extOf p.2 ++ ")") ∧
    (acodecOf p.2 = "none" → hf = true → extOf p.2 = "" →
      (mkVideoOption hf p).label = "Video " ++ toString p.1 ++ "p + audio") ∧
    (acodecOf p.2 = "none" → hf = true → extOf p.2 ≠ "" →
      (mkVideoOption hf p).label =
        "Video " ++ toString p.1 ++ "p + audio (" ++ extOf p.2 ++ ")") ∧
    (acodecOf p.2 = "none" → hf = false → extOf p.2 = "" →
      (mkVideoOption hf p).label = "Video " ++ toString p.1 ++ "p (video-only)") ∧
    (acodecOf p.2 = "none" → hf = false → extOf p.2 ≠ "" →
      (mkVideoOption hf p).label =
        "Video " ++ toString p.1 ++ "p (video-only, " ++ extOf p.2 ++ ")") := by
  refine ⟨?_, ?_, ?_, ?_, ?_, ?_⟩
  · intro ha hext
    simp [mkVideoOption, video_option_parts, ha, hext]
  · intro ha hext
    simp only [mkVideoOption, video_option_parts, ha, hext]
    apply String.ext
    simp [String.data_append, intercalate_one, ha, hext]
  · intro ha hff hext
    simp [mkVideoOption, video_option_parts, ha, hff, hext]
  · intro ha hff hext
    simp only [mkVideoOption, video_option_parts, ha, hff, hext]
    apply String.ext
    simp [String.data_append, intercalate_one, ha, hff, hext]
  · intro ha hff hext
    simp only [mkVideoOption, video_option_parts, ha, hff, hext]
    apply String.ext
    simp [String.data_append, intercalate_one, ha, hff, hext]
  · intro ha hff hext
    simp only [mkVideoOption, video_option_parts, ha, hff, hext]
    apply String.ext
    simp [String.data_append, intercalate_two, ha, hff, hext]

/-- A 720p format that carries audio, container `mp4`, no numeric fields. -/
def c2item : MediaItem :=
  ⟨some [some { RawFormat.empty with
    format_id := some "22", vcodec := some "avc1", acodec := some "mp4a",
    height := some 720, ext := some "mp4" }]⟩

set_option maxRecDepth 16384 in
/-- Counterexample to claim C2: with the merge tool available and a format
that carries audio — so, per the claim, no qualifier applies and the
parenthetical should be omitted — the emitted label is
`Video 720p (MP4)`, not `Video 720p`: the code appends the uppercased
extension whenever it is non-empty, independent of merge availability. -/
theorem build_download_options_label_counterexample :
    (build_download_options c2item true).1.map DownloadOption.label =
      ["Best available", "Video 720p (MP4)"] ∧
    ("Video 720p (MP4)" : String) ≠ "Video 720p" := by
  exact ⟨rfl, by decide⟩

/-- Claim C2, amended: every video option comes from a selected
height/format pair; its label carries the `video-only` qualifier exactly
when the format lacks audio and no merge tool is available, and carries the
uppercased extension in the parenthetical whenever the extension is
non-empty — also when the format has audio or the merge tool is available;
the parenthetical is omitted only when no qualifier at all applies. -/
theorem build_download_options_video_labels (item : MediaItem) (hf : Bool)
    (o : DownloadOption) (ho : o ∈ (build_download_options item hf).1)
    (hmode : o.mode = "video") :
    ∃ p ∈ selected_videos (item.formats.getD []),
      o.value = format_idOf p.2 ∧
      (acodecOf p.2 ≠ "none" → extOf p.2 = "" →
        o.label = "Video " ++ toString p.1 ++ "p") ∧
      (acodecOf p.2 ≠ "none" → extOf p.2 ≠ "" →
        o.label = "Video " ++ toString p.1 ++ "p (" ++ extOf p.2 ++ ")") ∧
      (acodecOf p.2 = "none" → hf = true → extOf p.2 = "" →
        o.label = "Video " ++ toString p.1 ++ "p + audio") ∧
      (acodecOf p.2 = "none" → hf = true → extOf p.2 ≠ "" →
        o.label = "Video " ++ toString p.1 ++ "p + audio (" ++ extOf p.2 ++ ")") ∧
      (acodecOf p.2 = "none" → hf = false → extOf p.2 = "" →
        o.label = "Video " ++ toString p.1 ++ "p (video-only)") ∧
      (acodecOf p.2 = "none" → hf = false → extOf p.2 ≠ "" →
        o.label = "Video " ++ toString p.1 ++ "p (video-only, " ++ extOf p.2 ++ ")") := by
  obtain ⟨subv, suba, hsubv, _, hopts, _⟩ := build_download_options_master item hf
  rw [hopts] at ho
  rcases List.mem_cons.mp ho with rfl | ho'
  · exact absurd hmode (by simp [best_option])
  rcases List.mem_append.mp ho' with hv | ha
  · obtain ⟨p, hp, rfl⟩ := List.mem_map.mp hv
    obtain ⟨c1, c2, c3, c4, c5, c6⟩ := mkVideoOption_label_cases hf p
    exact ⟨p, hsubv.subset hp, rfl, c1, c2, c3, c4, c5, c6⟩
  · obtain ⟨fmt, _, rfl⟩ := List.mem_map.mp ha
    exact absurd hmode (by simp [mkAudioOption])

set_option maxRecDepth 16384 in
/-- Witness for the amended C2: the `Video 720p (MP4)` option of `c2item`
originates from a selected 720p pair whose identifier it carries. -/
theorem build_download_options_video_labels_witness :
    ∃ p ∈ selected_videos (c2item.formats.getD []),
      (⟨"22", "Video 720p (MP4)", "video"⟩ : DownloadOption).value = format_idOf p.2 := by
  obtain ⟨p, hp, hval, _⟩ := build_download_options_video_labels c2item true
    ⟨"22", "Video 720p (MP4)", "video"⟩ (by decide) rfl
  exact ⟨p, hp, hval⟩

/-! ## C10: the shapes of the selector-map values -/

/-- Claim C10: `best` maps to the merged-best expression when the merge
tool is available and to `best` otherwise; every other key maps to itself,
or — only with the merge tool available and for a selected video format
lacking audio — to itself followed by `+bestaudio/best`. -/
theorem build_download_options_selector_values (item : MediaItem) (hf : Bool) :
    (build_download_options item hf).2.lookup "best" =
      some (if hf then "bestvideo*+bestaudio/best" else "best") ∧
    ∀ k v, (k, v) ∈ (build_download_options item hf).2 → k ≠ "best" →
      (v = k ∨ (hf = true ∧ v = k ++ "+bestaudio/best" ∧
        ∃ p ∈ selected_videos (item.formats.getD []),
          format_idOf p.2 = k ∧ acodecOf p.2 = "none")) := by
  obtain ⟨subv, suba, hsubv, _, _, hsel, _⟩ := build_download_options_master item hf
  constructor
  · rw [hsel]
    simp [List.lookup, best_selector]
  · intro k v hmem hk
    rw [hsel] at hmem
    rcases List.mem_cons.mp hmem with heq | hmem'
    · exact absurd (congrArg Prod.fst heq) (by simpa using hk)
    rcases List.mem_append.mp hmem' with hv | ha
    · obtain ⟨p, hp, heq⟩ := List.mem_map.mp hv
      have hk2 : format_idOf p.2 = k := congrArg Prod.fst heq
      have hv2 : (video_option_parts hf p.1 p.2).1 = v := congrArg Prod.snd heq
      rw [video_option_parts_sel] at hv2
      by_cases hac : acodecOf p.2 ≠ "none"
      · left
        rw [← hv2, if_pos hac, hk2]
      · push_neg at hac
        by_cases hff : hf = true
        · right
          refine ⟨hff, ?_, p, hsubv.subset hp, hk2, hac⟩
          rw [← hv2, if_neg (by simp [hac]), hff, if_pos rfl, hk2]
        · left
          have hff' : hf = false := by
            cases hf
            · rfl
            · exact absurd rfl hff
          rw [← hv2, if_neg (by simp [hac]), hff', if_neg (by simp), hk2]
    · obtain ⟨fmt, _, heq⟩ := List.mem_map.mp ha
      left
      have h1 : format_idOf fmt = k := congrArg Prod.fst heq
      have h2 : format_idOf fmt = v := congrArg Prod.snd heq
      exact h2.symm.trans h1

/-- A video-only 1080p format. -/
def c10item : MediaItem :=
  ⟨some [some { RawFormat.empty with
    format_id := some "303", vcodec := some "vp9", height := some 1080 }]⟩

set_option maxRecDepth 16384 in
/-- Witness for C10: with the merge tool available, `best` maps to the
merged expression, and the video-only format's value maps to
`303+bestaudio/best` via the right-hand shape. -/
theorem build_download_options_selector_values_witness :
    (build_download_options c10item true).2.lookup "best" =
      some "bestvideo*+bestaudio/best" ∧
    (("303+bestaudio/best" : String) = "303" ∨ (true = true ∧
      ("303+bestaudio/best" : String) = "303" ++ "+bestaudio/best" ∧
      ∃ p ∈ selected_videos (c10item.formats.getD []),
        format_idOf p.2 = "303" ∧ acodecOf p.2 = "none")) := by
  constructor
  · simpa using (build_download_options_selector_values c10item true).1
  · exact (build_download_options_selector_values c10item true).2
      "303" "303+bestaudio/best" (by decide) (by decide)

/-! ## C7: URL classification -/

set_option maxRecDepth 16384 in
/-- No domain of one platform is equal to, or a dot-suffix of, a domain of
a different platform (so at most one platform can match any host). -/
theorem domains_disjoint :
    ∀ p q : Platform, p ≠ q →
      ∀ d₁ ∈ platformDomains p, ∀ d₂ ∈ platformDomains q,
        ¬('.' :: d₁ <:+ '.' :: d₂) ∧ ¬('.' :: d₂ <:+ '.' :: d₁) := by
  decide

theorem not_match_both (d₁ d₂ : List Char)
    (h12 : ¬('.' :: d₁ <:+ '.' :: d₂)) (h21 : ¬('.' :: d₂ <:+ '.' :: d₁))
    (host : List Char) (h₁ : host_matches host d₁ = true)
    (h₂ : host_matches host d₂ = true) : False := by
  simp only [host_matches, Bool.or_eq_true, beq_iff_eq, decide_eq_true_eq] at h₁ h₂
  rcases h₁ with rfl | h₁
  · rcases h₂ with heq | hsuf
    · subst heq
      exact h12 (List.suffix_refl _)
    · exact h21 (hsuf.trans (List.suffix_cons '.' host))
  · rcases h₂ with rfl | hsuf₂
    · exact h12 (h₁.trans (List.suffix_cons '.' host))
    · rcases le_total ('.' :: d₁).length ('.' :: d₂).length with hle | hle
      · exact h12 (List.suffix_of_suffix_length_le h₁ hsuf₂ hle)
      · exact h21 (List.suffix_of_suffix_length_le hsuf₂ h₁ hle)

theorem host_matches_unique (host : List Char) (p q : Platform)
    (hp : (platformDomains p).any (host_matches host) = true)
    (hq : (platformDomains q).any (host_matches host) = true) : p = q := by
  by_contra hne
  obtain ⟨d₁, hd₁, hm₁⟩ := List.any_eq_true.mp hp
  obtain ⟨d₂, hd₂, hm₂⟩ := List.any_eq_true.mp hq
  obtain ⟨h12, h21⟩ := domains_disjoint p q hne d₁ hd₁ d₂ hd₂
  exact not_match_both d₁ d₂ h12 h21 host hm₁ hm₂

theorem detect_platform_matches (url : List Char) (p : Platform) :
    detect_platform url = some p ↔
      ∃ host, parse_web_url url = some host ∧
        (platformDomains p).any (host_matches host) = true := by
  unfold detect_platform
  cases hparse : parse_web_url url with
  | none => simp
  | some host =>
    constructor
    · intro hfind
      obtain ⟨pr, hpr, rfl⟩ : ∃ pr, SUPPORTED_PLATFORMS.find?
          (fun pd => pd.2.any (host_matches host)) = some pr ∧ pr.1 = p := by
        cases hf : SUPPORTED_PLATFORMS.find? (fun pd => pd.2.any (host_matches host)) with
        | none => simp [hf] at hfind
        | some pr => exact ⟨pr, rfl, by simpa [hf] using hfind⟩
      have hpred := List.find?_some hpr
      have hmem := List.mem_of_find?_eq_some hpr
      have hdom : pr.2 = platformDomains pr.1 := by
        simp only [SUPPORTED_PLATFORMS, List.mem_cons, List.not_mem_nil, or_false] at hmem
        rcases hmem with h | h | h | h <;> subst h <;> rfl
      refine ⟨host, rfl, ?_⟩
      rw [← hdom]
      exact hpred
    · rintro ⟨host', heq, hmatch⟩
      have heq' : host = host' := by injection heq
      subst heq'
      show (SUPPORTED_PLATFORMS.find? (fun pd => pd.2.any (host_matches host))).map
        Prod.fst = some p
      have hfalse : ∀ q : Platform, q ≠ p →
          (platformDomains q).any (host_matches host) = false := by
        intro q hqp
        cases hb : (platformDomains q).any (host_matches host) with
        | false => rfl
        | true => exact absurd (host_matches_unique host q p hb hmatch) hqp
      cases p with
      | instagram =>
        simp [SUPPORTED_PLATFORMS, List.find?, hmatch]
      | youtube =>
        have h1 := hfalse .instagram (by simp)
        simp [SUPPORTED_PLATFORMS, List.find?, h1, hmatch]
      | facebook =>
        have h1 := hfalse .instagram (by simp)
        have h2 := hfalse .youtube (by simp)
        simp [SUPPORTED_PLATFORMS, List.find?, h1, h2, hmatch]
      | loom =>
        have h1 := hfalse .instagram (by simp)
        have h2 := hfalse .youtube (by simp)
        have h3 := hfalse .facebook (by simp)
        simp [SUPPORTED_PLATFORMS, List.find?, h1, h2, h3, hmatch]

/-- Claim C7: classification returns platform `p` exactly when the URL
parses to a non-empty http(s) host that equals one of `p`'s root domains or
is a subdomain of one; it returns `none` exactly when the URL fails to
parse (empty, malformed, non-http(s) scheme, empty host) or its host
matches no platform's domain set. -/
theorem detect_platform_spec (url : List Char) :
    (∀ p : Platform, detect_platform url = some p ↔
      ∃ host, parse_web_url url = some host ∧
        (platformDomains p).any (host_matches host) = true) ∧
    (detect_platform url = none ↔
      ∀ host, parse_web_url url = some host →
        ∀ p : Platform, (platformDomains p).any (host_matches host) = false) := by
  refine ⟨detect_platform_matches url, ?_, ?_⟩
  · intro hnone host hparse p
    cases hb : (platformDomains p).any (host_matches host) with
    | false => rfl
    | true =>
      have := (detect_platform_matches url p).mpr ⟨host, hparse, hb⟩
      rw [hnone] at this
      exact absurd this (by simp)
  · intro hall
    cases hd : detect_platform url with
    | none => rfl
    | some p =>
      obtain ⟨host, hparse, hmatch⟩ := (detect_platform_matches url p).mp hd
      rw [hall host hparse p] at hmatch
      exact absurd hmatch (by simp)

set_option maxRecDepth 16384 in
/-- Witness for C7: an Instagram subdomain URL classifies as Instagram, an
unsupported host classifies as none. -/
theorem detect_platform_spec_witness :
    detect_platform "https://www.instagram.com/p/A/".data = some Platform.instagram ∧
    detect_platform "https://example.com/video".data = none := by
  constructor
  · exact ((detect_platform_spec "https://www.instagram.com/p/A/".data).1
      Platform.instagram).mpr ⟨"www.instagram.com".data, by decide, by decide⟩
  · refine (detect_platform_spec "https://example.com/video".data).2.mpr ?_
    intro host hparse p
    have heval : parse_web_url "https://example.com/video".data =
        some "example.com".data := by decide
    rw [heval] at hparse
    injection hparse with hparse'
    subst hparse'
    revert p
    decide

end App
